import Mathlib

/-!
Shallow embedding of `src/awkward-cpp/include/awkward/io/json.h`
(class `FromJsonObjectSchema`), the schema-driven JSON decode interpreter.

Machine integers: the C++ code uses `int64_t` throughout; signed overflow is
undefined behaviour there, so indices and values are modelled as unbounded
`Int`, with explicit reductions modulo 2^8 / 2^64 exactly where the C++
performs defined bit-pattern conversions (`reinterpret_cast<uint8_t*>` of an
`int8_t`, `static_cast<int64_t>` of a `uint64_t`).  Out-of-range vector
accesses are undefined behaviour in C++; the model uses `List.getD` with a
default, and the theorems carry the in-range hypotheses that the claims state.
-/

namespace AwkwardJson

/-- Modelled from the spec: the element-kind enumeration `util::dtype`
(declared in `awkward/util.h`, which is not under `src/`).  The interpreter
only distinguishes `int8`, `uint8`, `int64`, `float64`; the remaining
constructors stand for the other tags of the C++ enumeration, all of which
fall into the `default:` branches of the `switch` statements. -/
inductive Dtype where
  | notPrimitive
  | boolean
  | int8
  | int16
  | int32
  | int64
  | uint8
  | uint16
  | uint32
  | uint64
  | float32
  | float64
  deriving DecidableEq

/-- Reading `xs.data()[i]` for an `int64_t` index `i`: defined only for
`0 ≤ i < xs.length` (anything else is undefined behaviour in the C++). -/
def getI (xs : List Int) (i : Int) : Int := xs.getD i.toNat 0

/-- The C string terminator. -/
def nulChar : Char := Char.ofNat 0

/-- `strncmp(str, &chars[pos], n) == 0`, where `str` is the list of
characters of a NUL-terminated C string (the terminator itself is the end of
the list) and `chars` is the interpreter's character table.  Compares at most
`n` characters, stopping early at a mismatch or at a NUL in both strings. -/
def strncmpAt (str chars : List Char) (pos n : Nat) : Bool :=
  match n, str with
  | 0, _ => true
  | Nat.succ _, [] => decide (chars.getD pos nulChar = nulChar)
  | Nat.succ k, c :: rest =>
    if c = chars.getD pos nulChar then
      (if c = nulChar then true else strncmpAt rest chars (pos + 1) k)
    else false

/-- `true` when no character of the list is the NUL terminator (the contents
of a well-formed C string, and of a schema's symbol table). -/
def noNulB (s : List Char) : Bool := s.all (fun c => decide (c ≠ nulChar))

/-- State of the decode interpreter `FromJsonObjectSchema`: the private data
members of the C++ class.  The three `GrowableBuffer` families are modelled
as lists of their elements (uint8 entries as `Nat` below 256, int64 entries
as `Int`, float64 entries as `Float`). -/
structure FromJsonObjectSchema where
  instructions_ : List Int
  characters_ : List Char
  string_offsets_ : List Int
  output_names_ : List String
  output_dtypes_ : List Dtype
  output_which_ : List Int
  buffers_uint8_ : List (List Nat)
  buffers_int64_ : List (List Int)
  buffers_float64_ : List (List Float)
  current_instruction_ : Int
  instruction_stack_ : List Int
  current_stack_depth_ : Int
  counters_ : List Int
  length_ : Int

namespace FromJsonObjectSchema

/-- `current_stack_depth()`. -/
def current_stack_depth (m : FromJsonObjectSchema) : Int := m.current_stack_depth_

/-- `current_instruction()`. -/
def current_instruction (m : FromJsonObjectSchema) : Int := m.current_instruction_

/-- `instruction()`: `instructions_.data()[current_instruction_ * 4]`. -/
def instruction (m : FromJsonObjectSchema) : Int :=
  getI m.instructions_ (m.current_instruction_ * 4)

/-- `argument1()`. -/
def argument1 (m : FromJsonObjectSchema) : Int :=
  getI m.instructions_ (m.current_instruction_ * 4 + 1)

/-- `argument2()`. -/
def argument2 (m : FromJsonObjectSchema) : Int :=
  getI m.instructions_ (m.current_instruction_ * 4 + 2)

/-- `argument3()`. -/
def argument3 (m : FromJsonObjectSchema) : Int :=
  getI m.instructions_ (m.current_instruction_ * 4 + 3)

/-- `step_forward()`. -/
def step_forward (m : FromJsonObjectSchema) : FromJsonObjectSchema :=
  { m with current_instruction_ := m.current_instruction_ + 1 }

/-- `step_backward()`. -/
def step_backward (m : FromJsonObjectSchema) : FromJsonObjectSchema :=
  { m with current_instruction_ := m.current_instruction_ - 1 }

/-- `push_stack(jump_to)`: saves the current position in the stack slot at
the current depth, increments the depth, and jumps. -/
def push_stack (m : FromJsonObjectSchema) (jump_to : Int) : FromJsonObjectSchema :=
  { m with
    instruction_stack_ :=
      m.instruction_stack_.set m.current_stack_depth_.toNat m.current_instruction_,
    current_stack_depth_ := m.current_stack_depth_ + 1,
    current_instruction_ := jump_to }

/-- `pop_stack()`: decrements the depth and restores the position from the
popped slot. -/
def pop_stack (m : FromJsonObjectSchema) : FromJsonObjectSchema :=
  { m with
    current_stack_depth_ := m.current_stack_depth_ - 1,
    current_instruction_ :=
      getI m.instruction_stack_ (m.current_stack_depth_ - 1) }

/-- The body of one `find_enum` loop iteration's comparison:
`strncmp(str, &chars[offsets[i]], offsets[i+1] - offsets[i]) == 0`. -/
def symMatch (m : FromJsonObjectSchema) (str : List Char) (i : Int) : Bool :=
  strncmpAt str m.characters_ (getI m.string_offsets_ i).toNat
    (getI m.string_offsets_ (i + 1) - getI m.string_offsets_ i).toNat

/-- The exact text of symbol `i` of the symbol table: the characters between
`string_offsets_[i]` and `string_offsets_[i+1]`. -/
def symbolText (m : FromJsonObjectSchema) (i : Int) : List Char :=
  (m.characters_.drop (getI m.string_offsets_ i).toNat).take
    (getI m.string_offsets_ (i + 1) - getI m.string_offsets_ i).toNat

/-- The `for` loop of `find_enum`: scans symbol indices `i`, `i+1`, ... while
`i < stop_i`, returning `i - base` at the first `strncmp` match and `-1` when
the range is exhausted.  `fuel` bounds the iteration count; `find_enum`
supplies exactly the number of remaining indices. -/
def findEnumLoop (m : FromJsonObjectSchema) (str : List Char)
    (base i stop_i : Int) (fuel : Nat) : Int :=
  match fuel with
  | 0 => -1
  | Nat.succ f =>
    if i < stop_i then
      if symMatch m str i then i - base
      else findEnumLoop m str base (i + 1) stop_i f
    else -1

/-- `find_enum(str)`: scans symbols `argument2() ≤ i < argument3()` and
returns the offset from `argument2()` of the first `strncmp` match, else
`-1`. -/
def find_enum (m : FromJsonObjectSchema) (str : List Char) : Int :=
  findEnumLoop m str (argument2 m) (argument2 m) (argument3 m)
    (argument3 m - argument2 m).toNat

/-- The field-name symbol index of key-lookup entry `i`:
`instructions_.data()[i * 4 + 1]`. -/
def keyEntrySym (m : FromJsonObjectSchema) (i : Int) : Int :=
  getI m.instructions_ (i * 4 + 1)

/-- The jump target of key-lookup entry `i`:
`instructions_.data()[i * 4 + 2]`. -/
def keyEntryTarget (m : FromJsonObjectSchema) (i : Int) : Int :=
  getI m.instructions_ (i * 4 + 2)

/-- The exact text of the field name declared by key-lookup entry `i`. -/
def keyText (m : FromJsonObjectSchema) (i : Int) : List Char :=
  symbolText m (keyEntrySym m i)

/-- The `for` loop of `find_key`: scans instruction positions `i`, `i+1`, ...
while `i ≤ last_i`, comparing `str` against the symbol named by each entry's
second slot, and returning the entry's third slot at the first `strncmp`
match, else `-1`. -/
def findKeyLoop (m : FromJsonObjectSchema) (str : List Char)
    (i last_i : Int) (fuel : Nat) : Int :=
  match fuel with
  | 0 => -1
  | Nat.succ f =>
    if i ≤ last_i then
      if symMatch m str (keyEntrySym m i) then keyEntryTarget m i
      else findKeyLoop m str (i + 1) last_i f
    else -1

/-- `find_key(str)`: scans entries `current_instruction_ + 1` through
`current_instruction_ + argument1()` inclusive. -/
def find_key (m : FromJsonObjectSchema) (str : List Char) : Int :=
  findKeyLoop m str (m.current_instruction_ + 1)
    (m.current_instruction_ + argument1 m) (argument1 m).toNat

/-- Modelled from the spec: `GrowableBuffer::append` (the buffer class is not
under `src/`) appends one element at the end of the contiguous store; here a
buffer is its list of elements, so append is `++ [x]`. -/
def bufAppendI (bufs : List (List Int)) (index : Int) (x : Int) : List (List Int) :=
  bufs.set index.toNat (bufs.getD index.toNat [] ++ [x])

/-- `write_int8(index, x)`: `x` is an `int8_t` (so `-128 ≤ x < 128`);
`*reinterpret_cast<uint8_t*>(&x)` is its two's-complement bit pattern, the
unsigned byte `x mod 256`.  Appends to the shared uint8 buffer family. -/
def write_int8 (m : FromJsonObjectSchema) (index : Int) (x : Int) :
    FromJsonObjectSchema :=
  { m with buffers_uint8_ :=
      (m.buffers_uint8_.set index.toNat
        (m.buffers_uint8_.getD index.toNat [] ++ [(x % 256).toNat])) }

/-- `write_uint8(index, x)`: `x` is a `uint8_t` (so `x < 256`). -/
def write_uint8 (m : FromJsonObjectSchema) (index : Int) (x : Nat) :
    FromJsonObjectSchema :=
  { m with buffers_uint8_ :=
      (m.buffers_uint8_.set index.toNat
        (m.buffers_uint8_.getD index.toNat [] ++ [x])) }

/-- `write_many_uint8(index, num_items, values)`: `GrowableBuffer::extend`
copies the run `values` at the end of the buffer (modelled from the spec:
append-many is a bulk copy). -/
def write_many_uint8 (m : FromJsonObjectSchema) (index : Int) (values : List Nat) :
    FromJsonObjectSchema :=
  { m with buffers_uint8_ :=
      (m.buffers_uint8_.set index.toNat
        (m.buffers_uint8_.getD index.toNat [] ++ values)) }

/-- `write_int64(index, x)`. -/
def write_int64 (m : FromJsonObjectSchema) (index : Int) (x : Int) :
    FromJsonObjectSchema :=
  { m with buffers_int64_ := bufAppendI m.buffers_int64_ index x }

/-- `static_cast<int64_t>` of a `uint64_t` value: reduction modulo 2^64 read
as a two's-complement signed value. -/
def int64OfUInt64 (x : Nat) : Int :=
  if x % 2 ^ 64 < 2 ^ 63 then ((x % 2 ^ 64 : Nat) : Int)
  else ((x % 2 ^ 64 : Nat) : Int) - 2 ^ 64

/-- `write_uint64(index, x)`: `x` is a `uint64_t`; the value is narrowed by
`static_cast<int64_t>` into the same signed int64 buffer family. -/
def write_uint64 (m : FromJsonObjectSchema) (index : Int) (x : Nat) :
    FromJsonObjectSchema :=
  { m with buffers_int64_ := bufAppendI m.buffers_int64_ index (int64OfUInt64 x) }

/-- Modelled from the spec: `GrowableBuffer::last` (not under `src/`) returns
the most recently appended element; undefined on an empty buffer, modelled
with default `0`. -/
def bufLast (buf : List Int) : Int := buf.getLastD 0

/-- `write_add_int64(index, x)`: appends `last() + x` to the int64 buffer at
`index`. -/
def write_add_int64 (m : FromJsonObjectSchema) (index : Int) (x : Int) :
    FromJsonObjectSchema :=
  { m with buffers_int64_ :=
      (bufAppendI m.buffers_int64_ index
        (bufLast (m.buffers_int64_.getD index.toNat []) + x)) }

/-- `write_float64(index, x)`. -/
def write_float64 (m : FromJsonObjectSchema) (index : Int) (x : Float) :
    FromJsonObjectSchema :=
  { m with buffers_float64_ :=
      (m.buffers_float64_.set index.toNat
        (m.buffers_float64_.getD index.toNat [] ++ [x])) }

/-- `get_and_increment(index)`: `counters_[index]++` — returns the value
before the increment, together with the updated interpreter. -/
def get_and_increment (m : FromJsonObjectSchema) (index : Int) :
    Int × FromJsonObjectSchema :=
  (m.counters_.getD index.toNat 0,
   { m with counters_ :=
       (m.counters_.set index.toNat (m.counters_.getD index.toNat 0 + 1)) })

/-- `length()`. -/
def length (m : FromJsonObjectSchema) : Int := m.length_

/-- `add_to_length(length)`: `length_ += length`. -/
def add_to_length (m : FromJsonObjectSchema) (x : Int) : FromJsonObjectSchema :=
  { m with length_ := m.length_ + x }

/-- `num_outputs()`. -/
def num_outputs (m : FromJsonObjectSchema) : Int := m.output_names_.length

/-- `output_name(i)`. -/
def output_name (m : FromJsonObjectSchema) (i : Int) : String :=
  m.output_names_.getD i.toNat ""

/-- `output_dtype(i)`: the `switch` over `output_dtypes_[i]`. -/
def output_dtype (m : FromJsonObjectSchema) (i : Int) : String :=
  match m.output_dtypes_.getD i.toNat Dtype.notPrimitive with
  | Dtype.int8 => "int8"
  | Dtype.uint8 => "uint8"
  | Dtype.int64 => "int64"
  | Dtype.float64 => "float64"
  | _ => "unknown"

/-- Modelled from the spec: `GrowableBuffer::nbytes` (not under `src/`) is
the byte size of the contents — element count times element width (1 byte
for uint8 elements). -/
def nbytesU8 (buf : List Nat) : Int := (buf.length : Int)

/-- Modelled from the spec: byte size of an int64 buffer (8 bytes per
element). -/
def nbytesI64 (buf : List Int) : Int := 8 * (buf.length : Int)

/-- Modelled from the spec: byte size of a float64 buffer (8 bytes per
element). -/
def nbytesF64 (buf : List Float) : Int := 8 * (buf.length : Int)

/-- `output_num_items(i)`: the `switch` over `output_dtypes_[i]`, reading the
bound buffer `output_which_[i]` of the matching family. -/
def output_num_items (m : FromJsonObjectSchema) (i : Int) : Int :=
  match m.output_dtypes_.getD i.toNat Dtype.notPrimitive with
  | Dtype.int8 => nbytesU8 (m.buffers_uint8_.getD (getI m.output_which_ i).toNat [])
  | Dtype.uint8 => nbytesU8 (m.buffers_uint8_.getD (getI m.output_which_ i).toNat [])
  | Dtype.int64 =>
      nbytesI64 (m.buffers_int64_.getD (getI m.output_which_ i).toNat []) / 8
  | Dtype.float64 =>
      nbytesF64 (m.buffers_float64_.getD (getI m.output_which_ i).toNat []) / 8
  | _ => -1

/-- The data that `output_fill` writes through the caller's pointer: the full
contents of the bound buffer, tagged by element kind. -/
inductive FillData where
  | u8 : List Nat → FillData
  | i64 : List Int → FillData
  | f64 : List Float → FillData

/-- `output_fill(i, external_pointer)`: `GrowableBuffer::concatenate` copies
the entire bound buffer into the caller's memory (modelled from the spec:
concatenate is a full copy-out); the `default:` branch writes nothing, which
is `none` here. -/
def output_fill (m : FromJsonObjectSchema) (i : Int) : Option FillData :=
  match m.output_dtypes_.getD i.toNat Dtype.notPrimitive with
  | Dtype.int8 => some (FillData.u8 (m.buffers_uint8_.getD (getI m.output_which_ i).toNat []))
  | Dtype.uint8 => some (FillData.u8 (m.buffers_uint8_.getD (getI m.output_which_ i).toNat []))
  | Dtype.int64 => some (FillData.i64 (m.buffers_int64_.getD (getI m.output_which_ i).toNat []))
  | Dtype.float64 => some (FillData.f64 (m.buffers_float64_.getD (getI m.output_which_ i).toNat []))
  | _ => none

/-- `true` when the element-kind tag is one that the `switch` statements of
the output queries recognise. -/
def knownDtype : Dtype → Bool
  | Dtype.int8 => true
  | Dtype.uint8 => true
  | Dtype.int64 => true
  | Dtype.float64 => true
  | _ => false

/-- Validity of symbol index `i`: the index and its successor are inside the
offset table, and the delimited character range lies inside the character
table (the symbol-table invariant of the spec, localised to index `i`). -/
def validSymbolIndexB (m : FromJsonObjectSchema) (i : Int) : Bool :=
  decide (0 ≤ i) &&
  decide (i + 1 < (m.string_offsets_.length : Int)) &&
  decide (0 ≤ getI m.string_offsets_ i) &&
  decide (getI m.string_offsets_ i ≤ getI m.string_offsets_ (i + 1)) &&
  decide (getI m.string_offsets_ (i + 1) ≤ (m.characters_.length : Int))

/-- Validity of the enum range declared by the current instruction: its
second argument is non-negative and every index of `[argument2, argument3)`
is a valid symbol index. -/
def validEnumRangeB (m : FromJsonObjectSchema) : Bool :=
  decide (0 ≤ argument2 m) &&
  (List.range (argument3 m - argument2 m).toNat).all
    (fun k => validSymbolIndexB m (argument2 m + (k : Int)))

/-- Validity of the key-lookup region declared by the current instruction:
each of the `argument1` entries following it names a valid symbol index in
its second slot. -/
def validKeyRegionB (m : FromJsonObjectSchema) : Bool :=
  (List.range (argument1 m).toNat).all
    (fun k => validSymbolIndexB m
      (keyEntrySym m (m.current_instruction_ + 1 + (k : Int))))

/-- Modelled from the spec: the constructor (defined outside `src/`)
initialises every counter-bank entry to zero at program load. -/
def freshCounters (m : FromJsonObjectSchema) : Bool :=
  m.counters_.all (fun c => decide (c = 0))

/-- The values returned by a run of successive `get_and_increment` calls on
the same counter index. -/
def gaiRuns (index : Int) : FromJsonObjectSchema → Nat → List Int
  | _, 0 => []
  | m, Nat.succ k =>
    (get_and_increment m index).1 ::
      gaiRuns index (get_and_increment m index).2 k

end FromJsonObjectSchema

/-! ### Concrete interpreter states used to evaluate the theorems -/

/-- An interpreter with everything empty: the base for the concrete states
below. -/
def emptyMachine : FromJsonObjectSchema where
  instructions_ := []
  characters_ := []
  string_offsets_ := [0]
  output_names_ := []
  output_dtypes_ := []
  output_which_ := []
  buffers_uint8_ := []
  buffers_int64_ := []
  buffers_float64_ := []
  current_instruction_ := 0
  instruction_stack_ := [0]
  current_stack_depth_ := 0
  counters_ := [0]
  length_ := 0

/-- Symbol table ["ab", "c"]; the current instruction declares the enum range
[0, 2). -/
def enumMachine : FromJsonObjectSchema :=
  { emptyMachine with
    instructions_ := [0, 0, 0, 2]
    characters_ := ['a', 'b', 'c']
    string_offsets_ := [0, 2, 3] }

/-- Symbol table ["a", "ab"] (the first symbol is a proper prefix of the
second); the current instruction declares the enum range [0, 2). -/
def enumMachineP : FromJsonObjectSchema :=
  { emptyMachine with
    instructions_ := [0, 0, 0, 2]
    characters_ := ['a', 'a', 'b']
    string_offsets_ := [0, 1, 3] }

/-- Symbol table ["ab", "c"]; the current instruction starts a key-lookup
region of 2 entries: field "ab" jumps to 100, field "c" jumps to 200. -/
def keyMachine : FromJsonObjectSchema :=
  { emptyMachine with
    instructions_ := [0, 2, 0, 0, 0, 0, 100, 0, 0, 1, 200, 0]
    characters_ := ['a', 'b', 'c']
    string_offsets_ := [0, 2, 3] }

/-- Symbol table ["a", "ab"]; the current instruction starts a key-lookup
region of 2 entries: field "a" jumps to 100, field "ab" jumps to 200. -/
def keyMachineP : FromJsonObjectSchema :=
  { emptyMachine with
    instructions_ := [0, 2, 0, 0, 0, 0, 100, 0, 0, 1, 200, 0]
    characters_ := ['a', 'a', 'b']
    string_offsets_ := [0, 1, 3] }

/-- One int64 buffer holding [0, 3] (a cumulative-offsets buffer). -/
def bufMachine : FromJsonObjectSchema :=
  { emptyMachine with buffers_int64_ := [[0, 3]] }

/-- Four declared outputs, one of each recognised element kind, bound to
buffers of sizes 0 (float64), 2 (int64), 3 (uint8 shared by the byte
kinds). -/
def outMachine : FromJsonObjectSchema :=
  { emptyMachine with
    output_names_ := ["f", "i", "b", "u"]
    output_dtypes_ := [Dtype.float64, Dtype.int64, Dtype.int8, Dtype.uint8]
    output_which_ := [0, 0, 0, 0]
    buffers_uint8_ := [[1, 2, 3]]
    buffers_int64_ := [[5, 6]]
    buffers_float64_ := [[]] }

/-- A counter bank with two fresh counters. -/
def ctrMachine : FromJsonObjectSchema :=
  { emptyMachine with counters_ := [0, 0] }

/-- One declared output whose element-kind tag (boolean) is none of the four
recognised kinds. -/
def outMachineU : FromJsonObjectSchema :=
  { emptyMachine with
    output_names_ := ["x"]
    output_dtypes_ := [Dtype.boolean]
    output_which_ := [0]
    buffers_uint8_ := [[9]] }

/-- Two declared outputs, one tagged int8 and one tagged uint8, bound to the
same uint8 buffer (index 0). -/
def shareMachine : FromJsonObjectSchema :=
  { emptyMachine with
    output_names_ := ["s", "u"]
    output_dtypes_ := [Dtype.int8, Dtype.uint8]
    output_which_ := [0, 0]
    buffers_uint8_ := [[7]] }

/-! ### Helper lemmas -/

theorem getD_set_self {α : Type _} (xs : List α) (i : Nat) (x d : α)
    (h : i < xs.length) : (xs.set i x).getD i d = x := by
  rw [List.getD_eq_getElem _ _ (by simp [h])]
  exact List.getElem_set_self _

theorem getD_set_ne {α : Type _} (xs : List α) (i j : Nat) (x d : α)
    (h : i ≠ j) : (xs.set i x).getD j d = xs.getD j d := by
  simp [List.getD_eq_getElem?_getD, List.getElem?_set_ne h]

theorem noNulB_spec {s : List Char} (h : noNulB s = true) :
    ∀ c ∈ s, c ≠ nulChar := by
  intro c hc
  have := List.all_eq_true.mp h c hc
  exact of_decide_eq_true this

/-- The `strncmp`-style comparison succeeds exactly when the `n`-character
slice of the character table starting at `pos` is a prefix of the query
string, provided neither contains a NUL character and the slice stays inside
the table. -/
theorem strncmpAt_eq_isPrefixOf {chars : List Char} (hch : noNulB chars = true) :
    ∀ (n pos : Nat) (str : List Char), pos + n ≤ chars.length →
      noNulB str = true →
      strncmpAt str chars pos n = ((chars.drop pos).take n).isPrefixOf str := by
  intro n
  induction n with
  | zero =>
    intro pos str _ _
    simp [strncmpAt, List.isPrefixOf]
  | succ k ih =>
    intro pos str hlen hstr
    have hpos : pos < chars.length := by omega
    have hget : chars.getD pos nulChar = chars[pos] := List.getD_eq_getElem _ _ hpos
    have hc2 : chars[pos] ≠ nulChar := noNulB_spec hch _ (List.getElem_mem hpos)
    have hdrop : chars.drop pos = chars[pos] :: chars.drop (pos + 1) :=
      List.drop_eq_getElem_cons hpos
    rw [hdrop, List.take_succ_cons]
    cases str with
    | nil =>
      have hun : strncmpAt [] chars pos (k + 1) =
          decide (chars.getD pos nulChar = nulChar) := rfl
      rw [hun, hget]
      simp [hc2, List.isPrefixOf]
    | cons c rest =>
      have hrest : noNulB rest = true := by
        simp only [noNulB, List.all_cons, Bool.and_eq_true] at hstr
        exact hstr.2
      have hun : strncmpAt (c :: rest) chars pos (k + 1) =
          (if c = chars.getD pos nulChar then
            (if c = nulChar then true else strncmpAt rest chars (pos + 1) k)
          else false) := rfl
      rw [hun, hget]
      by_cases hcc : c = chars[pos]
      · have hcn : c ≠ nulChar := hcc ▸ hc2
        have hih := ih (pos + 1) rest (by omega) hrest
        rw [if_pos hcc, if_neg hcn, hih]
        simp [List.isPrefixOf, beq_iff_eq, hcc]
      · have hne : (chars[pos] == c) = false := by
          simp only [beq_eq_false_iff_ne, ne_eq]
          exact fun h => hcc h.symm
        rw [if_neg hcc]
        simp [List.isPrefixOf, hne]

namespace FromJsonObjectSchema

/-- Under the per-index symbol-table validity condition, one loop iteration's
`strncmp` test is exactly "the symbol's text is a prefix of the query". -/
theorem symMatch_eq_isPrefixOf (m : FromJsonObjectSchema) (str : List Char) (i : Int)
    (hv : validSymbolIndexB m i = true) (hstr : noNulB str = true)
    (hch : noNulB m.characters_ = true) :
    symMatch m str i = (symbolText m i).isPrefixOf str := by
  simp only [validSymbolIndexB, Bool.and_eq_true, decide_eq_true_eq] at hv
  obtain ⟨⟨⟨⟨_, _⟩, hs0⟩, hss⟩, hsl⟩ := hv
  have hle : (getI m.string_offsets_ i).toNat +
      (getI m.string_offsets_ (i + 1) - getI m.string_offsets_ i).toNat ≤
      m.characters_.length := by omega
  exact strncmpAt_eq_isPrefixOf hch _ _ str hle hstr

theorem validEnumRangeB_index (m : FromJsonObjectSchema)
    (hv : validEnumRangeB m = true) :
    ∀ i : Int, argument2 m ≤ i → i < argument3 m → validSymbolIndexB m i = true := by
  intro i h1 h2
  simp only [validEnumRangeB, Bool.and_eq_true] at hv
  obtain ⟨h0, hall⟩ := hv
  have h0' : 0 ≤ argument2 m := of_decide_eq_true h0
  have hk : (i - argument2 m).toNat < (argument3 m - argument2 m).toNat := by omega
  have h3 := List.all_eq_true.mp hall _ (List.mem_range.mpr hk)
  have he : argument2 m + (((i - argument2 m).toNat : Nat) : Int) = i := by omega
  rwa [he] at h3

theorem validKeyRegionB_index (m : FromJsonObjectSchema)
    (hv : validKeyRegionB m = true) :
    ∀ i : Int, m.current_instruction_ + 1 ≤ i →
      i ≤ m.current_instruction_ + argument1 m →
      validSymbolIndexB m (keyEntrySym m i) = true := by
  intro i h1 h2
  simp only [validKeyRegionB] at hv
  have hk : (i - (m.current_instruction_ + 1)).toNat < (argument1 m).toNat := by omega
  have h3 := List.all_eq_true.mp hv _ (List.mem_range.mpr hk)
  have he : m.current_instruction_ + 1 +
      (((i - (m.current_instruction_ + 1)).toNat : Nat) : Int) = i := by omega
  rwa [he] at h3

theorem findEnumLoop_all_false (m : FromJsonObjectSchema) (str : List Char)
    (base stop_i : Int) :
    ∀ (fuel : Nat) (i : Int),
      (∀ j : Int, i ≤ j → j < stop_i → symMatch m str j = false) →
      findEnumLoop m str base i stop_i fuel = -1 := by
  intro fuel
  induction fuel with
  | zero => intro i _; rfl
  | succ f ih =>
    intro i hall
    simp only [findEnumLoop]
    by_cases hi : i < stop_i
    · rw [if_pos hi, hall i le_rfl hi]
      simp only [Bool.false_eq_true, if_false]
      exact ih (i + 1) (fun j ha hb => hall j (by omega) hb)
    · rw [if_neg hi]

theorem findEnumLoop_found (m : FromJsonObjectSchema) (str : List Char)
    (base stop_i : Int) :
    ∀ (fuel : Nat) (i j : Int), i ≤ j → j < stop_i →
      symMatch m str j = true →
      (∀ j' : Int, i ≤ j' → j' < j → symMatch m str j' = false) →
      (stop_i - i).toNat ≤ fuel →
      findEnumLoop m str base i stop_i fuel = j - base := by
  intro fuel
  induction fuel with
  | zero => intro i j h1 h2 _ _ hf; exact absurd hf (by omega)
  | succ f ih =>
    intro i j h1 h2 hj hmin hf
    have hi : i < stop_i := by omega
    simp only [findEnumLoop]
    rw [if_pos hi]
    by_cases hij : i = j
    · rw [hij, hj]
      simp
    · rw [hmin i le_rfl (by omega)]
      simp only [Bool.false_eq_true, if_false]
      exact ih (i + 1) j (by omega) h2 hj
        (fun j' ha hb => hmin j' (by omega) hb) (by omega)

theorem findKeyLoop_all_false (m : FromJsonObjectSchema) (str : List Char)
    (last_i : Int) :
    ∀ (fuel : Nat) (i : Int),
      (∀ j : Int, i ≤ j → j ≤ last_i → symMatch m str (keyEntrySym m j) = false) →
      findKeyLoop m str i last_i fuel = -1 := by
  intro fuel
  induction fuel with
  | zero => intro i _; rfl
  | succ f ih =>
    intro i hall
    simp only [findKeyLoop]
    by_cases hi : i ≤ last_i
    · rw [if_pos hi, hall i le_rfl hi]
      simp only [Bool.false_eq_true, if_false]
      exact ih (i + 1) (fun j ha hb => hall j (by omega) hb)
    · rw [if_neg hi]

theorem findKeyLoop_found (m : FromJsonObjectSchema) (str : List Char)
    (last_i : Int) :
    ∀ (fuel : Nat) (i j : Int), i ≤ j → j ≤ last_i →
      symMatch m str (keyEntrySym m j) = true →
      (∀ j' : Int, i ≤ j' → j' < j → symMatch m str (keyEntrySym m j') = false) →
      (last_i + 1 - i).toNat ≤ fuel →
      findKeyLoop m str i last_i fuel = keyEntryTarget m j := by
  intro fuel
  induction fuel with
  | zero => intro i j h1 h2 _ _ hf; exact absurd hf (by omega)
  | succ f ih =>
    intro i j h1 h2 hj hmin hf
    have hi : i ≤ last_i := by omega
    simp only [findKeyLoop]
    rw [if_pos hi]
    by_cases hij : i = j
    · rw [hij, hj]
      simp
    · rw [hmin i le_rfl (by omega)]
      simp only [Bool.false_eq_true, if_false]
      exact ih (i + 1) j (by omega) h2 hj
        (fun j' ha hb => hmin j' (by omega) hb) (by omega)

/-- C1 (amended): `find_enum` returns the zero-based offset from `argument2`
of the first symbol in the range whose text is a prefix of the query (the
`strncmp` call compares only the symbol's own length), and `-1` when no
symbol in the range is a prefix of the query.  In particular the exact text
of a symbol S returns S's offset provided no earlier symbol of the range is a
prefix of that text. -/
theorem C1_find_enum_first_prefix_match (m : FromJsonObjectSchema)
    (str : List Char) (hv : validEnumRangeB m = true)
    (hstr : noNulB str = true) (hch : noNulB m.characters_ = true) :
    (∀ j : Nat, argument2 m + (j : Int) < argument3 m →
       symbolText m (argument2 m + (j : Int)) = str →
       (∀ j' : Nat, j' < j →
         (symbolText m (argument2 m + (j' : Int))).isPrefixOf str = false) →
       find_enum m str = (j : Int))
    ∧ ((∀ k : Nat, k < (argument3 m - argument2 m).toNat →
         (symbolText m (argument2 m + (k : Int))).isPrefixOf str = false) →
       find_enum m str = -1) := by
  have h0 : 0 ≤ argument2 m := by
    simp only [validEnumRangeB, Bool.and_eq_true] at hv
    exact of_decide_eq_true hv.1
  constructor
  · intro j hjlt hjtext hjmin
    have hvj := validEnumRangeB_index m hv (argument2 m + (j : Int)) (by omega) hjlt
    have hmatch : symMatch m str (argument2 m + (j : Int)) = true := by
      rw [symMatch_eq_isPrefixOf m str _ hvj hstr hch, hjtext]
      exact List.isPrefixOf_iff_prefix.mpr (List.prefix_refl str)
    have hmin : ∀ j' : Int, argument2 m ≤ j' → j' < argument2 m + (j : Int) →
        symMatch m str j' = false := by
      intro j' ha hb
      have hk' : (j' - argument2 m).toNat < j := by omega
      have heq : argument2 m + (((j' - argument2 m).toNat : Nat) : Int) = j' := by
        omega
      have hvj' := validEnumRangeB_index m hv j' ha (by omega)
      rw [symMatch_eq_isPrefixOf m str j' hvj' hstr hch]
      have hpf := hjmin _ hk'
      rwa [heq] at hpf
    have hfe := findEnumLoop_found m str (argument2 m) (argument3 m)
      (argument3 m - argument2 m).toNat (argument2 m) (argument2 m + (j : Int))
      (by omega) hjlt hmatch hmin (by omega)
    simp only [find_enum]
    rw [hfe]
    omega
  · intro hall
    simp only [find_enum]
    apply findEnumLoop_all_false
    intro j ha hb
    have hk : (j - argument2 m).toNat < (argument3 m - argument2 m).toNat := by omega
    have heq : argument2 m + (((j - argument2 m).toNat : Nat) : Int) = j := by omega
    have hvj := validEnumRangeB_index m hv j ha hb
    rw [symMatch_eq_isPrefixOf m str j hvj hstr hch]
    have hpf := hall _ hk
    rwa [heq] at hpf

/-- C1 counterexample: in the symbol table ["a", "ab"] with enum range
[0, 2), the query "ab" is the exact text of the symbol at range offset 1,
yet `find_enum` returns 0 (the `strncmp` with the shorter symbol's length
already succeeds on "a"), not 1 as the claim states. -/
theorem C1_counterexample :
    validEnumRangeB enumMachineP = true ∧
    noNulB enumMachineP.characters_ = true ∧
    symbolText enumMachineP 1 = ['a', 'b'] ∧
    find_enum enumMachineP ['a', 'b'] = 0 ∧
    find_enum enumMachineP ['a', 'b'] ≠ 1 := by decide

/-- C1 witness: on the symbol table ["ab", "c"] with enum range [0, 2), the
amended theorem computes `find_enum "c" = 1` and `find_enum "z" = -1`. -/
theorem C1_witness :
    find_enum enumMachine ['c'] = 1 ∧ find_enum enumMachine ['z'] = -1 := by
  constructor
  · have h := (C1_find_enum_first_prefix_match enumMachine ['c'] (by decide)
      (by decide) (by decide)).1 1 (by decide) (by decide) (by decide)
    simpa using h
  · exact (C1_find_enum_first_prefix_match enumMachine ['z'] (by decide)
      (by decide) (by decide)).2 (by decide)

/-- C2 (amended): `find_key` scans the `argument1` entries following the
current instruction and returns the jump target (third slot) of the first
entry whose field name is a prefix of the query (the `strncmp` call compares
only the field name's own length), and `-1` when no entry's name is a prefix
of the query.  In particular the exact text of a declared field name returns
that entry's target provided no earlier entry's name is a prefix of it —
which also gives first-entry-wins when two entries carry the same name. -/
theorem C2_find_key_first_prefix_match (m : FromJsonObjectSchema)
    (str : List Char) (hv : validKeyRegionB m = true)
    (hstr : noNulB str = true) (hch : noNulB m.characters_ = true) :
    (∀ j : Nat, (j : Int) < argument1 m →
       keyText m (m.current_instruction_ + 1 + (j : Int)) = str →
       (∀ j' : Nat, j' < j →
         (keyText m (m.current_instruction_ + 1 + (j' : Int))).isPrefixOf str
           = false) →
       find_key m str = keyEntryTarget m (m.current_instruction_ + 1 + (j : Int)))
    ∧ ((∀ k : Nat, k < (argument1 m).toNat →
         (keyText m (m.current_instruction_ + 1 + (k : Int))).isPrefixOf str
           = false) →
       find_key m str = -1) := by
  constructor
  · intro j hjlt hjtext hjmin
    have hvj := validKeyRegionB_index m hv
      (m.current_instruction_ + 1 + (j : Int)) (by omega) (by omega)
    have hmatch :
        symMatch m str (keyEntrySym m (m.current_instruction_ + 1 + (j : Int)))
          = true := by
      rw [symMatch_eq_isPrefixOf m str _ hvj hstr hch]
      have ht : symbolText m (keyEntrySym m (m.current_instruction_ + 1 + (j : Int)))
          = str := hjtext
      rw [ht]
      exact List.isPrefixOf_iff_prefix.mpr (List.prefix_refl str)
    have hmin : ∀ j' : Int, m.current_instruction_ + 1 ≤ j' →
        j' < m.current_instruction_ + 1 + (j : Int) →
        symMatch m str (keyEntrySym m j') = false := by
      intro j' ha hb
      have hk' : (j' - (m.current_instruction_ + 1)).toNat < j := by omega
      have heq : m.current_instruction_ + 1 +
          (((j' - (m.current_instruction_ + 1)).toNat : Nat) : Int) = j' := by omega
      have hvj' := validKeyRegionB_index m hv j' ha (by omega)
      rw [symMatch_eq_isPrefixOf m str _ hvj' hstr hch]
      have hpf := hjmin _ hk'
      rw [heq] at hpf
      exact hpf
    have hfk := findKeyLoop_found m str (m.current_instruction_ + argument1 m)
      (argument1 m).toNat (m.current_instruction_ + 1)
      (m.current_instruction_ + 1 + (j : Int)) (by omega) (by omega)
      hmatch hmin (by omega)
    simpa only [find_key] using hfk
  · intro hall
    simp only [find_key]
    apply findKeyLoop_all_false
    intro j ha hb
    have hk : (j - (m.current_instruction_ + 1)).toNat < (argument1 m).toNat := by
      omega
    have heq : m.current_instruction_ + 1 +
        (((j - (m.current_instruction_ + 1)).toNat : Nat) : Int) = j := by omega
    have hvj := validKeyRegionB_index m hv j ha hb
    rw [symMatch_eq_isPrefixOf m str _ hvj hstr hch]
    have hpf := hall _ hk
    rw [heq] at hpf
    exact hpf

/-- C2 counterexample: with fields "a" (target 100) and "ab" (target 200) in
that order, the query "ab" is the exact text of the second field, yet
`find_key` returns 100 — the `strncmp` with the first field's length already
succeeds on "a" — not the declared target 200. -/
theorem C2_counterexample :
    validKeyRegionB keyMachineP = true ∧
    keyText keyMachineP 2 = ['a', 'b'] ∧
    keyEntryTarget keyMachineP 2 = 200 ∧
    find_key keyMachineP ['a', 'b'] = 100 ∧
    find_key keyMachineP ['a', 'b'] ≠ 200 := by decide

/-- C2 witness: with fields "ab" → 100 and "c" → 200, the amended theorem
computes `find_key "c" = 200` and `find_key "z" = -1`. -/
theorem C2_witness :
    find_key keyMachine ['c'] = 200 ∧ find_key keyMachine ['z'] = -1 := by
  constructor
  · have h := (C2_find_key_first_prefix_match keyMachine ['c'] (by decide)
      (by decide) (by decide)).1 1 (by decide) (by decide) (by decide)
    have he : keyEntryTarget keyMachine
        (keyMachine.current_instruction_ + 1 + ((1 : Nat) : Int)) = 200 := by decide
    rw [he] at h
    exact h
  · exact (C2_find_key_first_prefix_match keyMachine ['z'] (by decide)
      (by decide) (by decide)).2 (by decide)

/-- C3: on any state whose stack depth is non-negative and strictly below
the stack capacity, `push_stack T` immediately followed by `pop_stack`
restores the current instruction and the depth; `push_stack` increments the
depth by one and jumps to `T`; `pop_stack` decrements the depth by one. -/
theorem C3_stack_roundtrip (m : FromJsonObjectSchema) (T : Int)
    (h0 : 0 ≤ m.current_stack_depth_)
    (h1 : m.current_stack_depth_ < (m.instruction_stack_.length : Int)) :
    (pop_stack (push_stack m T)).current_instruction_ = m.current_instruction_
    ∧ (pop_stack (push_stack m T)).current_stack_depth_ = m.current_stack_depth_
    ∧ (push_stack m T).current_stack_depth_ = m.current_stack_depth_ + 1
    ∧ (push_stack m T).current_instruction_ = T
    ∧ (pop_stack m).current_stack_depth_ = m.current_stack_depth_ - 1 := by
  have hlen : m.current_stack_depth_.toNat < m.instruction_stack_.length := by
    omega
  refine ⟨?_, ?_, rfl, rfl, rfl⟩
  · show getI
      (m.instruction_stack_.set m.current_stack_depth_.toNat m.current_instruction_)
      (m.current_stack_depth_ + 1 - 1) = m.current_instruction_
    have hd : m.current_stack_depth_ + 1 - 1 = m.current_stack_depth_ := by ring
    rw [hd]
    simp only [getI]
    exact getD_set_self _ _ _ _ hlen
  · show m.current_stack_depth_ + 1 - 1 = m.current_stack_depth_
    ring

/-- C3 witness: the round trip evaluated on the empty machine (depth 0,
capacity 1) with jump target 5. -/
theorem C3_witness :
    (pop_stack (push_stack emptyMachine 5)).current_instruction_
        = emptyMachine.current_instruction_
    ∧ (pop_stack (push_stack emptyMachine 5)).current_stack_depth_
        = emptyMachine.current_stack_depth_
    ∧ (push_stack emptyMachine 5).current_stack_depth_
        = emptyMachine.current_stack_depth_ + 1
    ∧ (push_stack emptyMachine 5).current_instruction_ = 5
    ∧ (pop_stack emptyMachine).current_stack_depth_
        = emptyMachine.current_stack_depth_ - 1 :=
  C3_stack_roundtrip emptyMachine 5 (by decide) (by decide)

/-- C4: when the int64 buffer bound at `index` currently holds `bs ++ [v]`,
`write_add_int64 index x` turns it into `bs ++ [v, v + x]` (one appended
element equal to last-plus-delta, all earlier elements unchanged), and every
other int64 buffer is untouched. -/
theorem C4_write_add_int64 (m : FromJsonObjectSchema) (index x v : Int)
    (bs : List Int) (h0 : 0 ≤ index)
    (h1 : index.toNat < m.buffers_int64_.length)
    (hb : m.buffers_int64_.getD index.toNat [] = bs ++ [v]) :
    (write_add_int64 m index x).buffers_int64_.getD index.toNat []
      = bs ++ [v, v + x]
    ∧ ∀ j : Nat, j ≠ index.toNat →
        (write_add_int64 m index x).buffers_int64_.getD j []
          = m.buffers_int64_.getD j [] := by
  constructor
  · show (bufAppendI m.buffers_int64_ index
      (bufLast (m.buffers_int64_.getD index.toNat []) + x)).getD index.toNat []
      = bs ++ [v, v + x]
    simp only [bufAppendI]
    rw [getD_set_self _ _ _ _ h1, hb]
    simp [bufLast, List.getLastD_concat]
  · intro j hj
    show (bufAppendI m.buffers_int64_ index
      (bufLast (m.buffers_int64_.getD index.toNat []) + x)).getD j []
      = m.buffers_int64_.getD j []
    simp only [bufAppendI]
    exact getD_set_ne _ _ _ _ _ (Ne.symm hj)

/-- C4 witness: appending last-plus-4 to the buffer [0, 3] yields
[0, 3, 7]. -/
theorem C4_witness :
    (write_add_int64 bufMachine 0 4).buffers_int64_.getD (0 : Int).toNat []
      = [0, 3, 7] := by
  have h := (C4_write_add_int64 bufMachine 0 4 3 [0] (by decide) (by decide)
    (by decide)).1
  simpa using h

/-- C5: for a declared output position, the reported element count is the
bound buffer's byte size divided by 8 for the float64 and int64 kinds, and
the byte size itself for the int8 and uint8 kinds — in all four cases the
number of elements of the bound buffer. -/
theorem C5_output_num_items (m : FromJsonObjectSchema) (i : Int)
    (h0 : 0 ≤ i) (h1 : i.toNat < m.output_dtypes_.length) :
    (m.output_dtypes_.getD i.toNat Dtype.notPrimitive = Dtype.float64 →
      output_num_items m i
        = nbytesF64 (m.buffers_float64_.getD (getI m.output_which_ i).toNat []) / 8
      ∧ output_num_items m i
        = ((m.buffers_float64_.getD (getI m.output_which_ i).toNat []).length : Int))
    ∧ (m.output_dtypes_.getD i.toNat Dtype.notPrimitive = Dtype.int64 →
      output_num_items m i
        = nbytesI64 (m.buffers_int64_.getD (getI m.output_which_ i).toNat []) / 8
      ∧ output_num_items m i
        = ((m.buffers_int64_.getD (getI m.output_which_ i).toNat []).length : Int))
    ∧ (m.output_dtypes_.getD i.toNat Dtype.notPrimitive = Dtype.int8 →
      output_num_items m i
        = nbytesU8 (m.buffers_uint8_.getD (getI m.output_which_ i).toNat [])
      ∧ output_num_items m i
        = ((m.buffers_uint8_.getD (getI m.output_which_ i).toNat []).length : Int))
    ∧ (m.output_dtypes_.getD i.toNat Dtype.notPrimitive = Dtype.uint8 →
      output_num_items m i
        = nbytesU8 (m.buffers_uint8_.getD (getI m.output_which_ i).toNat [])
      ∧ output_num_items m i
        = ((m.buffers_uint8_.getD (getI m.output_which_ i).toNat []).length : Int)) := by
  refine ⟨fun hdt => ?_, fun hdt => ?_, fun hdt => ?_, fun hdt => ?_⟩
  · simp only [output_num_items, hdt, nbytesF64]
    refine ⟨by trivial, ?_⟩
    omega
  · simp only [output_num_items, hdt, nbytesI64]
    refine ⟨by trivial, ?_⟩
    omega
  · simp only [output_num_items, hdt, nbytesU8]
    exact ⟨by trivial, by trivial⟩
  · simp only [output_num_items, hdt, nbytesU8]
    exact ⟨by trivial, by trivial⟩

/-- C5 witness: the element counts of the four outputs of `outMachine`. -/
theorem C5_witness :
    output_num_items outMachine 0 = 0 ∧ output_num_items outMachine 1 = 2
    ∧ output_num_items outMachine 2 = 3 ∧ output_num_items outMachine 3 = 3 := by
  have h0 := ((C5_output_num_items outMachine 0 (by decide) (by decide)).1
    (by decide)).2
  have h1 := ((C5_output_num_items outMachine 1 (by decide) (by decide)).2.1
    (by decide)).2
  have h2 := ((C5_output_num_items outMachine 2 (by decide) (by decide)).2.2.1
    (by decide)).2
  have h3 := ((C5_output_num_items outMachine 3 (by decide) (by decide)).2.2.2
    (by decide)).2
  refine ⟨?_, ?_, ?_, ?_⟩
  · rw [h0]; decide
  · rw [h1]; decide
  · rw [h2]; decide
  · rw [h3]; decide

/-- The counter-bank run lemma: starting from any state, `n` successive
`get_and_increment` calls on a valid index return the arithmetic progression
that starts at the counter's current value. -/
theorem gaiRuns_eq (index : Int) :
    ∀ (n : Nat) (m : FromJsonObjectSchema),
      index.toNat < m.counters_.length →
      gaiRuns index m n
        = (List.range n).map
            (fun k : Nat => m.counters_.getD index.toNat 0 + (k : Int)) := by
  intro n
  induction n with
  | zero => intro m _; rfl
  | succ k ih =>
    intro m hm
    have hlen : index.toNat < ((get_and_increment m index).2).counters_.length := by
      simpa [get_and_increment] using hm
    have hv : ((get_and_increment m index).2).counters_.getD index.toNat 0
        = m.counters_.getD index.toNat 0 + 1 := by
      simp only [get_and_increment]
      exact getD_set_self _ _ _ _ hm
    show (get_and_increment m index).1 ::
        gaiRuns index (get_and_increment m index).2 k
        = (List.range (k + 1)).map
            (fun j : Nat => m.counters_.getD index.toNat 0 + (j : Int))
    rw [ih _ hlen, hv, List.range_succ_eq_map, List.map_cons, List.map_map]
    have h1 : (get_and_increment m index).1 = m.counters_.getD index.toNat 0 := rfl
    rw [h1]
    congr 1
    · simp
    · apply List.map_congr_left
      intro a _
      simp only [Function.comp_apply]
      push_cast
      ring

/-- C6: `get_and_increment` returns the counter's value before the
increment; on a freshly loaded interpreter (all counters zero), `n`
successive calls on the same valid index return 0, 1, ..., n-1, and two
back-to-back calls never return equal values. -/
theorem C6_get_and_increment (m : FromJsonObjectSchema) (index : Int) (n : Nat)
    (h1 : index.toNat < m.counters_.length)
    (hf : freshCounters m = true) :
    (get_and_increment m index).1 = m.counters_.getD index.toNat 0
    ∧ gaiRuns index m n = (List.range n).map (fun k : Nat => (k : Int))
    ∧ ∀ k : Nat, k + 1 < n →
        (gaiRuns index m n).getD k 0 ≠ (gaiRuns index m n).getD (k + 1) 0 := by
  have hc : m.counters_.getD index.toNat 0 = 0 := by
    rw [List.getD_eq_getElem _ _ h1]
    exact of_decide_eq_true (List.all_eq_true.mp hf _ (List.getElem_mem h1))
  have hrun : gaiRuns index m n = (List.range n).map (fun k : Nat => (k : Int)) := by
    rw [gaiRuns_eq index n m h1, hc]
    exact List.map_congr_left (fun a _ => by omega)
  refine ⟨rfl, hrun, ?_⟩
  intro k hk
  have hlen2 : ((List.range n).map (fun j : Nat => (j : Int))).length = n := by
    simp
  have hk1 : k < ((List.range n).map (fun j : Nat => (j : Int))).length := by
    rw [hlen2]; omega
  have hk2 : k + 1 < ((List.range n).map (fun j : Nat => (j : Int))).length := by
    rw [hlen2]; omega
  rw [hrun, List.getD_eq_getElem _ _ hk1, List.getD_eq_getElem _ _ hk2]
  simp only [List.getElem_map, List.getElem_range]
  omega

/-- C6 witness: three successive calls on counter 1 of a fresh bank return
0, 1, 2. -/
theorem C6_witness : gaiRuns 1 ctrMachine 3 = [0, 1, 2] := by
  have h := (C6_get_and_increment ctrMachine 1 3 (by decide) (by decide)).2.1
  rw [h]
  decide

/-- C7: for a declared output position whose element-kind tag is none of
int8/uint8/int64/float64, `output_dtype` reports "unknown",
`output_num_items` reports -1, and `output_fill` writes nothing at all (the
`switch` falls through to an empty `default:`), leaving the interpreter and
the caller's destination memory untouched. -/
theorem C7_unknown_dtype (m : FromJsonObjectSchema) (i : Int)
    (h0 : 0 ≤ i) (h1 : i.toNat < m.output_dtypes_.length)
    (hk : knownDtype (m.output_dtypes_.getD i.toNat Dtype.notPrimitive) = false) :
    output_dtype m i = "unknown" ∧ output_num_items m i = -1
    ∧ output_fill m i = none := by
  cases hdt : m.output_dtypes_.getD i.toNat Dtype.notPrimitive <;>
    first
    | (rw [hdt] at hk; exact absurd hk (by decide))
    | exact ⟨by unfold output_dtype; rw [hdt],
             by unfold output_num_items; rw [hdt],
             by unfold output_fill; rw [hdt]⟩

/-- C7 witness: the defined fallbacks evaluated on a boolean-tagged
output. -/
theorem C7_witness :
    output_dtype outMachineU 0 = "unknown" ∧ output_num_items outMachineU 0 = -1
    ∧ output_fill outMachineU 0 = none :=
  C7_unknown_dtype outMachineU 0 (by decide) (by decide) (by decide)

/-- C8 counterexample: `add_to_length` adds its signed 64-bit argument to
`length_` unconditionally, so a call with a negative argument decreases
`length()` — the claim's "after every call to add_to_length, length() is
greater than or equal to its value before the call" fails at argument -1. -/
theorem C8_counterexample :
    length (add_to_length emptyMachine (-1)) < length emptyMachine
    ∧ ¬ (length emptyMachine ≤ length (add_to_length emptyMachine (-1))) := by
  decide

/-- C8 (amended): after every call to `add_to_length` with a non-negative
argument, `length()` is at least its previous value (the call adds exactly
its argument), and no other primitive changes `length_`. -/
theorem C8_length_monotone (m : FromJsonObjectSchema)
    (x T index x8 x64 xa : Int) (u8 u64 : Nat) (vs : List Nat) (xf : Float)
    (hx : 0 ≤ x) :
    length m ≤ length (add_to_length m x)
    ∧ length (add_to_length m x) = length m + x
    ∧ length (step_forward m) = length m
    ∧ length (step_backward m) = length m
    ∧ length (push_stack m T) = length m
    ∧ length (pop_stack m) = length m
    ∧ length (write_int8 m index x8) = length m
    ∧ length (write_uint8 m index u8) = length m
    ∧ length (write_many_uint8 m index vs) = length m
    ∧ length (write_int64 m index x64) = length m
    ∧ length (write_uint64 m index u64) = length m
    ∧ length (write_add_int64 m index xa) = length m
    ∧ length (write_float64 m index xf) = length m
    ∧ length (get_and_increment m index).2 = length m := by
  refine ⟨?_, rfl, rfl, rfl, rfl, rfl, rfl, rfl, rfl, rfl, rfl, rfl, rfl, rfl⟩
  show m.length_ ≤ m.length_ + x
  omega

/-- C8 witness: the amended monotonicity evaluated on the empty machine with
argument 2 (and arbitrary concrete arguments for the frame conjuncts). -/
theorem C8_witness :
    length emptyMachine ≤ length (add_to_length emptyMachine 2)
    ∧ length (add_to_length emptyMachine 2) = length emptyMachine + 2 := by
  refine ⟨?_, ?_⟩
  · exact (C8_length_monotone emptyMachine 2 0 0 0 0 0 0 0 [] 0 (by decide)).1
  · exact (C8_length_monotone emptyMachine 2 0 0 0 0 0 0 0 [] 0 (by decide)).2.1

/-- C9: no lookup, write, counter, length, or output primitive moves the
interpreter's control state — `current_instruction_` and
`current_stack_depth_` are unchanged by each of them, so `step_forward`,
`step_backward`, `push_stack` and `pop_stack` are the only primitives that
change the current position.  (`find_enum`, `find_key` and the output
queries are `const`-style readers: in this embedding they return values
without producing a new state at all; the state-producing primitives are
enumerated below.) -/
theorem C9_control_frame (m : FromJsonObjectSchema)
    (index x8 x64 xa lenArg : Int) (u8 u64 : Nat) (vs : List Nat) (xf : Float) :
    ((write_int8 m index x8).current_instruction_ = m.current_instruction_
      ∧ (write_int8 m index x8).current_stack_depth_ = m.current_stack_depth_)
    ∧ ((write_uint8 m index u8).current_instruction_ = m.current_instruction_
      ∧ (write_uint8 m index u8).current_stack_depth_ = m.current_stack_depth_)
    ∧ ((write_many_uint8 m index vs).current_instruction_ = m.current_instruction_
      ∧ (write_many_uint8 m index vs).current_stack_depth_ = m.current_stack_depth_)
    ∧ ((write_int64 m index x64).current_instruction_ = m.current_instruction_
      ∧ (write_int64 m index x64).current_stack_depth_ = m.current_stack_depth_)
    ∧ ((write_uint64 m index u64).current_instruction_ = m.current_instruction_
      ∧ (write_uint64 m index u64).current_stack_depth_ = m.current_stack_depth_)
    ∧ ((write_add_int64 m index xa).current_instruction_ = m.current_instruction_
      ∧ (write_add_int64 m index xa).current_stack_depth_ = m.current_stack_depth_)
    ∧ ((write_float64 m index xf).current_instruction_ = m.current_instruction_
      ∧ (write_float64 m index xf).current_stack_depth_ = m.current_stack_depth_)
    ∧ ((get_and_increment m index).2.current_instruction_ = m.current_instruction_
      ∧ (get_and_increment m index).2.current_stack_depth_ = m.current_stack_depth_)
    ∧ ((add_to_length m lenArg).current_instruction_ = m.current_instruction_
      ∧ (add_to_length m lenArg).current_stack_depth_ = m.current_stack_depth_) :=
  ⟨⟨rfl, rfl⟩, ⟨rfl, rfl⟩, ⟨rfl, rfl⟩, ⟨rfl, rfl⟩, ⟨rfl, rfl⟩, ⟨rfl, rfl⟩,
   ⟨rfl, rfl⟩, ⟨rfl, rfl⟩, ⟨rfl, rfl⟩⟩

/-- C10: there is no separate signed-byte store — `write_int8` stores the
two's-complement bit pattern `x mod 256` into the same uint8 buffer family
that `write_uint8` uses, and `write_uint64` stores its argument reduced
modulo 2^64 as a two's-complement int64 into the same buffer family as
`write_int64` (the stored value is congruent to the argument modulo 2^64 and
lies in the signed 64-bit range); consequently an int8-declared output and a
uint8-declared output bound to the same buffer index report identical counts
and fill identical bytes. -/
theorem C10_shared_stores (m : FromJsonObjectSchema) (bi x8 : Int) (x64 : Nat)
    (i j : Int)
    (h8 : -128 ≤ x8 ∧ x8 < 128) (h64 : x64 < 2 ^ 64)
    (hdi : m.output_dtypes_.getD i.toNat Dtype.notPrimitive = Dtype.int8)
    (hdj : m.output_dtypes_.getD j.toNat Dtype.notPrimitive = Dtype.uint8)
    (hw : getI m.output_which_ i = getI m.output_which_ j) :
    write_int8 m bi x8 = write_uint8 m bi (x8 % 256).toNat
    ∧ write_uint64 m bi x64 = write_int64 m bi (int64OfUInt64 x64)
    ∧ int64OfUInt64 x64 % 2 ^ 64 = (x64 : Int) % 2 ^ 64
    ∧ (-(2 ^ 63) ≤ int64OfUInt64 x64 ∧ int64OfUInt64 x64 < 2 ^ 63)
    ∧ output_num_items m i = output_num_items m j
    ∧ output_fill m i = output_fill m j := by
  have hmod : ∀ r : Prop,
      (((x64 % 2 ^ 64 : Nat) : Int) = (x64 : Int) % 2 ^ 64 → r) → r := by
    intro r hr
    apply hr
    push_cast
    ring_nf
  refine ⟨rfl, rfl, ?_, ?_, ?_, ?_⟩
  · apply hmod
    intro hcast
    simp only [int64OfUInt64]
    split_ifs with hlt
    · rw [hcast]
      omega
    · rw [hcast]
      omega
  · apply hmod
    intro hcast
    simp only [int64OfUInt64]
    split_ifs with hlt
    · constructor <;> omega
    · have := Nat.mod_lt x64 (show 0 < 2 ^ 64 by norm_num)
      constructor <;> omega
  · simp only [output_num_items, hdi, hdj, hw]
  · simp only [output_fill, hdi, hdj, hw]

/-- C10 witness: writing the int8 value -1 equals writing the uint8 value
255 into the shared byte store, and the two outputs bound to the same buffer
agree on count and fill. -/
theorem C10_witness :
    write_int8 shareMachine 0 (-1) = write_uint8 shareMachine 0 255
    ∧ output_num_items shareMachine 0 = output_num_items shareMachine 1
    ∧ output_fill shareMachine 0 = output_fill shareMachine 1 := by
  have h := C10_shared_stores shareMachine 0 (-1) 0 0 1
    (by decide) (by decide) (by decide) (by decide) (by decide)
  have he : ((-1 : Int) % 256).toNat = 255 := by decide
  refine ⟨?_, h.2.2.2.2.1, h.2.2.2.2.2⟩
  have h1 := h.1
  rw [he] at h1
  exact h1

end FromJsonObjectSchema

end AwkwardJson
